import Mathlib

/-!
Verification of the rubinCadenceScratchWIC extinction-map code
(`compareExtinctions.py`, `stilism_local.py`, `readExtinction.py`).

The Python floating-point arrays are embedded as lists of rationals
(`List ℚ`): all arithmetic used by the algorithms under study is exact
field arithmetic, indexing, and comparisons, so `ℚ` is a faithful model
of the values except for float rounding, which none of the claims turn
on.  Fallible numpy operations (`IndexError` on out-of-range indexing,
`ValueError` from `np.max` of an empty array, the `TypeError` raised by
tuple-unpacking `None`) are modelled with `Option`/`Except`.  Note that
division by zero in `ℚ` yields `0`; every theorem that divides carries
a nonzero hypothesis where that matters.
-/

namespace RubinCadence

/-- `np.arange(start, stop, step)`: the values `start + i*step` for
`0 ≤ i < ⌈(stop - start)/step⌉` (numpy's length formula). -/
def arange (start stop step : ℚ) : List ℚ :=
  (List.range ⌈(stop - start) / step⌉.toNat).map
    (fun i : ℕ => start + (i : ℚ) * step)

/-- `stilism_local.generate_distances(dmax, dmin, dstep)`:
`np.arange(dmin, dmax + 0.1*dstep, dstep)`. -/
def generate_distances (dmax dmin dstep : ℚ) : List ℚ :=
  arange dmin (dmax + (1/10) * dstep) dstep

/-- `np.max` over a list: `none` models the `ValueError` numpy raises on
an empty array. -/
def npMax : List ℚ → Option ℚ
  | [] => none
  | x :: xs => some (xs.foldl max x)

/-- `np.argmin` over a list: index of the first occurrence of the
minimum (0 for the empty array, which numpy would reject). -/
def npArgminAux : List ℚ → ℕ → ℚ → ℕ → ℕ
  | [], _, _, besti => besti
  | x :: xs, i, bestv, besti =>
      if x < bestv then npArgminAux xs (i + 1) x i
      else npArgminAux xs (i + 1) bestv besti

/-- First-minimum index, entry point. -/
def npArgmin : List ℚ → ℕ
  | [] => 0
  | x :: xs => npArgminAux xs 1 x 0

/-- The "fine" distance array built inside
`lineofsight.generateDistances`: `distLimPc = distMax + 5*distStepPc`
(`distMax` being the in-cube maximum returned by
`stilism_local.find_max_distance`, passed here as a parameter since it
depends on the dust-cube data), then
`generate_distances(distLimPc, distMinPc, distStepPc)`. -/
def distsCloseOf (distMinPc distStepPc distMax : ℚ) : List ℚ :=
  generate_distances (distMax + 5 * distStepPc) distMinPc distStepPc

/-- The coarse-bin count of `lineofsight.generateDistances`:
`nBinsFar = nDistBins - len(distsClose)`, replaced by the fallback 10
when negative (with a warning in the source). -/
def nBinsFarOf (nDistBins nClose : ℕ) : ℕ :=
  if (nDistBins : ℤ) - (nClose : ℤ) < 0 then 10
  else ((nDistBins : ℤ) - (nClose : ℤ)).toNat

/-- The coarse distance array of `lineofsight.generateDistances`:
`np.linspace(mC, distMaxCoarsePc, nBinsFar, endpoint=False)` shifted
forward by one coarse step `(distMaxCoarsePc - mC) / nBinsFar`. -/
def distsFarOf (distMaxCoarsePc mC : ℚ) (nBinsFar : ℕ) : List ℚ :=
  (List.range nBinsFar).map
    (fun i : ℕ => (mC + (i : ℚ) * ((distMaxCoarsePc - mC) / (nBinsFar : ℚ))) +
      (distMaxCoarsePc - mC) / (nBinsFar : ℚ))

/-- `lineofsight.generateDistances` (compareExtinctions.py lines
100-154).  The first fine array `distsFine` is only consumed by
`find_max_distance`, whose result enters here as the parameter
`distMax`; `distMaxPc` is therefore unused by the remaining
computation.  `none` models the two crashes reachable in the source:
`np.max(distsClose)` on an empty array (`ValueError`) and
`distsFar[1] - distsFar[0]` when `np.linspace` produced fewer than two
coarse points (`IndexError`). -/
def generateDistances (distMaxPc distMinPc distStepPc distMaxCoarsePc : ℚ)
    (nDistBins : ℕ) (distMax : ℚ) : Option (List ℚ) :=
  match npMax (distsCloseOf distMinPc distStepPc distMax) with
  | none => none
  | some mC =>
      if nBinsFarOf nDistBins (distsCloseOf distMinPc distStepPc distMax).length < 2
      then none
      else some (distsCloseOf distMinPc distStepPc distMax ++
        distsFarOf distMaxCoarsePc mC
          (nBinsFarOf nDistBins (distsCloseOf distMinPc distStepPc distMax).length))

/-- `np.cumsum`: running sums `[s₀, s₀+s₁, …]`. -/
def cumsum (l : List ℚ) : List ℚ :=
  (l.scanl (· + ·) 0).tail

/-- The per-bin step widths of `get_ebv_lallement`:
`d_step = d_interp - np.roll(d_interp, 1)` followed by
`d_step[0] = d_step[1]`.  For arrays of length below two the source
raises `IndexError` on that assignment; the `[]` branch here is only
reached behind the length guard in `get_ebv_lallement`. -/
def dSteps : List ℚ → List ℚ
  | d0 :: d1 :: rest =>
      (d1 - d0) :: List.zipWith (· - ·) (d1 :: rest) (d0 :: d1 :: rest)
  | _ => []

/-- `stilism_local.find_max_distance`, with the sight-line unit vector
`(ux, uy, uz)` standing for `gal_to_xyz(l, b, ·)/dist` (the transform is
linear in distance) and `(xmax, ymax, zmax)` the last grid coordinate on
each cube axis.  Returns the largest supplied distance whose coordinates
are strictly inside the cube; `none` models the `ValueError` from
`np.max` when no distance qualifies. -/
def find_max_distance (ux uy uz xmax ymax zmax : ℚ) (dists : List ℚ) :
    Option ℚ :=
  if dists.isEmpty then some 0
  else
    npMax (dists.filter (fun t =>
      decide (|t * ux| < xmax) && decide (|t * uy| < ymax) &&
      decide (|t * uz| < zmax)))

/-- `stilism_local.get_ebv_lallement` with a supplied density oracle
`ρ` standing for the grid interpolator `rgi` (its values at the queried
cartesian points).  Returns the cumulative E(B-V) array, the distance
array used, and `distMax`.  `none` models the `IndexError` when fewer
than two distances are in play and the `ValueError` inside
`find_max_distance`. -/
def get_ebv_lallement (ρ : ℚ → ℚ → ℚ → ℚ)
    (ux uy uz xmax ymax zmax dist dmin dstep : ℚ) (distances : List ℚ) :
    Option (List ℚ × List ℚ × ℚ) :=
  let d := if distances.isEmpty then generate_distances dist dmin dstep
           else distances
  if d.length < 2 then none
  else
    let steps := dSteps d
    match find_max_distance ux uy uz xmax ymax zmax d with
    | none => none
    | some distMax =>
        let ebvs := d.map (fun t => ρ (t * ux) (t * uy) (t * uz))
        some (cumsum (List.zipWith (· * ·) ebvs steps), d, distMax)

/-- The transition distance `distCompare` of `hybridSightline`
(lines 581-601): default `distLimPc * distFrac`, optionally replaced by
the farthest median distance at which the two model medians are
positive and their ratio is within `diffRatioMin` of 1, provided that
distance exceeds `minDistL19`. -/
def distCompareOf (dists ebvL19 ebvBovy : List ℚ)
    (distLim distFrac diffRatioMin minDistL19 : ℚ)
    (setLimDynamically : Bool) : ℚ :=
  let dc := distLim * distFrac
  if setLimDynamically then
    let kept := ((dists.zip (ebvL19.zip ebvBovy)).filter (fun p =>
      decide (p.1 ≤ distLim) && decide (0 < p.2.1) && decide (0 < p.2.2) &&
      decide (|p.2.2 / p.2.1 - 1| < diffRatioMin))).map Prod.fst
    match npMax kept with
    | none => dc
    | some m => if minDistL19 < m then m else dc
  else dc

/-- The transition-bin index of `hybridSightline`:
`iMaxL19 = np.argmin(np.abs(distsMed - distCompare))`. -/
def iTransOf (dists : List ℚ) (distCompare : ℚ) : ℕ :=
  npArgmin (dists.map (fun d => |d - distCompare|))

/-- The scale factor `rvFactor` of `hybridSightline` (lines 607-611):
1 unless the Bovy median at bin `i` exceeds `minEBV`, in which case it
is the ratio of the medians there. -/
def rvFactorOf (ebvL19 ebvBovy : List ℚ) (i : ℕ) (minEBV : ℚ) : ℚ :=
  if minEBV < ebvBovy.getD i 0 then ebvL19.getD i 0 / ebvBovy.getD i 0
  else 1

/-- The merged curve of `hybridSightline` (lines 621-634): start from
the Bovy median, overwrite bins with distance strictly below
`distCompare` with the rescaled L19 median, then overwrite any bin
whose current value is below `minEBV` with the rescaled L19 median. -/
def ebvHybridOf (dists ebvL19 ebvBovy : List ℚ)
    (distCompare minEBV rv : ℚ) : List ℚ :=
  let scaled := ebvL19.map (· / rv)
  let h1 := (dists.zip (ebvBovy.zip scaled)).map
    (fun p => if p.1 < distCompare then p.2.2 else p.2.1)
  (h1.zip scaled).map (fun p => if p.1 < minEBV then p.2 else p.1)

/-- `hybridSightline`, from the point where the per-bin medians over
the accepted samples are in hand.  `nKept` is the number of offset
samples surviving the collision/declination cuts (their construction
goes through astropy coordinate transforms, opaque here); when it is
zero the source prints a warning and returns `None` (line 488-490).
The returned triple is `(ebvHybrid, distsMed, scale)` where — exactly
as in the source — the scale slot carries `rvFactor` on the plotting
path (line 748) but the literal `1.0` on the non-plotting path
(line 648).  `none` models the Python `None` returns. -/
def hybridSightline (nKept : ℕ) (dists ebvL19 ebvBovy : List ℚ)
    (distLim distFrac diffRatioMin minDistL19 minEBV : ℚ)
    (setLimDynamically doPlots returnValues : Bool) :
    Option (List ℚ × List ℚ × ℚ) :=
  if nKept < 1 then none
  else
    let dc := distCompareOf dists ebvL19 ebvBovy distLim distFrac
      diffRatioMin minDistL19 setLimDynamically
    let i := iTransOf dists dc
    let rv := rvFactorOf ebvL19 ebvBovy i minEBV
    let h := ebvHybridOf dists ebvL19 ebvBovy dc minEBV rv
    if returnValues then some (h, dists, if doPlots then rv else 1)
    else none

/-- One sight line of a `loopSightlines` batch: the surviving-sample
count and the median curves its `hybridSightline` call would produce,
plus that sight line's L19 validity limit. -/
structure SightlineSpec where
  nKept : ℕ
  distsMed : List ℚ
  ebvL19Med : List ℚ
  ebvBovyMed : List ℚ
  distLim : ℚ

/-- The loop body of `loopSightlines` (lines 839-870).  Each iteration
tuple-unpacks the result of `hybridSightline(..., setLimDynamically=
False, doPlots=False, returnValues=True)` with the source's default
`distFrac=1`, `diffRatioMin=0.5`, `minDistL19=1000`, `minEBV=1e-3`;
when that result is `None` the unpacking raises `TypeError`, modelled
as `Except.error`, aborting the batch.  The counter tracks calls to
`writeExtmap`: one whenever `iHP ≥ reportInterval` and
`iHP % reportInterval == 0`, plus the final write. -/
def loopSightlinesAux (reportInterval : ℕ) :
    List SightlineSpec → ℕ → List (List ℚ × List ℚ × ℚ) → ℕ →
    Except String (List (List ℚ × List ℚ × ℚ) × ℕ)
  | [], _, rows, flushes => .ok (rows.reverse, flushes + 1)
  | s :: rest, iHP, rows, flushes =>
      match hybridSightline s.nKept s.distsMed s.ebvL19Med s.ebvBovyMed
        s.distLim 1 (1/2) 1000 (1/1000) false false true with
      | none => .error "TypeError: cannot unpack non-iterable NoneType"
      | some r =>
          loopSightlinesAux reportInterval rest (iHP + 1) (r :: rows)
            (if reportInterval ≤ iHP ∧ iHP % reportInterval = 0
             then flushes + 1 else flushes)

/-- `loopSightlines`, entry point over its batch of sight lines. -/
def loopSightlines (specs : List SightlineSpec) (reportInterval : ℕ) :
    Except String (List (List ℚ × List ℚ × ℚ) × ℕ) :=
  loopSightlinesAux reportInterval specs 0 [] 0

/-- One input tile of `mergeMaps`: the pixel ids in HDU 0, the
per-pixel rows of HDUs 1-3, and the optional mask HDU 4 (`none` covers
both a missing HDU and zero-size mask data, the two `hasMask = False`
cases of the source). -/
structure MapTile where
  rows : List ℕ
  dists : List (List ℚ)
  ebvs : List (List ℚ)
  sfacs : List ℚ
  mask : Option (List (List ℕ))

/-- Fancy-index assignment `master[rows] = vals`, row by row. -/
def setRows {α : Type} (master : List α) (rows : List ℕ) (vals : List α) :
    List α :=
  (rows.zip vals).foldl (fun acc p => acc.set p.1 p.2) master

/-- Incorporating one tile into the master arrays of `mergeMaps`
(lines 966-988): slot the tile's rows in; if the tile carries no mask
data, set the whole mask row to 0 for each of its pixel ids. -/
def mergeTile (nbins : ℕ)
    (master : List (List ℚ) × List (List ℚ) × List ℚ × List (List ℕ))
    (t : MapTile) :
    List (List ℚ) × List (List ℚ) × List ℚ × List (List ℕ) :=
  let dists := setRows master.1 t.rows t.dists
  let ebvs := setRows master.2.1 t.rows t.ebvs
  let sfacs := setRows master.2.2.1 t.rows t.sfacs
  let masks := match t.mask with
    | some m => setRows master.2.2.2 t.rows m
    | none => t.rows.foldl (fun acc r => acc.set r (List.replicate nbins 0))
        master.2.2.2
  (dists, ebvs, sfacs, masks)

/-- `healpy.nside2npix`. -/
def nside2npix (nside : ℕ) : ℕ := 12 * nside * nside

/-- `mergeMaps` (lines 954-991), abstracted over I/O: the tiles stand
for the files matching the search string, `nside`/`nbins` for the
header keywords of the first file.  Master arrays start zero-filled,
except the mask which starts at 1 everywhere (the np.masked convention
stated in the source: the mask is FALSE, i.e. 0, for good points). -/
def mergeMaps (nside nbins : ℕ) (tiles : List MapTile) :
    List (List ℚ) × List (List ℚ) × List ℚ × List (List ℕ) :=
  let npix := nside2npix nside
  tiles.foldl (mergeTile nbins)
    (List.replicate npix (List.replicate nbins 0),
     List.replicate npix (List.replicate nbins 0),
     List.replicate npix 0,
     List.replicate npix (List.replicate nbins 1))

/-- One axis of the dust cube: first coordinate, uniform step, point
count — the source builds each axis as
`np.arange(shape)*step - center`. -/
structure CubeAxis where
  lo : ℚ
  step : ℚ
  n : ℕ

/-- Last grid coordinate of an axis. -/
def CubeAxis.hi (a : CubeAxis) : ℚ := a.lo + ((a.n - 1 : ℕ) : ℚ) * a.step

/-- Is `x` inside the axis bounds `[lo, hi]`? -/
def CubeAxis.inBounds (a : CubeAxis) (x : ℚ) : Bool :=
  decide (a.lo ≤ x) && decide (x ≤ a.hi)

/-- Cell index and fractional offset of `x` along an axis (cell index
clamped so the upper corner exists). -/
def CubeAxis.locate (a : CubeAxis) (x : ℚ) : ℕ × ℚ :=
  let t := (x - a.lo) / a.step
  let i := min t.floor.toNat (a.n - 2)
  (i, t - (i : ℚ))

/-- Modelled from the spec: the grid interpolator `rgi` is constructed
in stilism_local.py (lines 28-29) as scipy's
`RegularGridInterpolator((x0,y0,z0), ebv, bounds_error=False,
fill_value=0.)`, library code absent from the repository.  Per the
spec's GridInterpolator contract it answers point queries by trilinear
interpolation over the regular grid and "any point outside the axis
bounds on any axis yields exactly 0 (no error, no extrapolation)". -/
def rgi (ax ay az : CubeAxis) (f : ℕ → ℕ → ℕ → ℚ) (x y z : ℚ) : ℚ :=
  if ax.inBounds x && ay.inBounds y && az.inBounds z then
    let px := ax.locate x
    let py := ay.locate y
    let pz := az.locate z
    let i := px.1; let tx := px.2
    let j := py.1; let ty := py.2
    let k := pz.1; let tz := pz.2
    (1 - tx) * (1 - ty) * (1 - tz) * f i j k +
    tx * (1 - ty) * (1 - tz) * f (i + 1) j k +
    (1 - tx) * ty * (1 - tz) * f i (j + 1) k +
    (1 - tx) * (1 - ty) * tz * f i j (k + 1) +
    tx * ty * (1 - tz) * f (i + 1) (j + 1) k +
    tx * (1 - ty) * tz * f (i + 1) j (k + 1) +
    (1 - tx) * ty * tz * f i (j + 1) (k + 1) +
    tx * ty * tz * f (i + 1) (j + 1) (k + 1)
  else 0

/-- The `R_x` coefficient table of `ebv3d.__init__`
(readExtinction.py lines 65-66). -/
def R_x (s : String) : Option ℚ :=
  if s = "u" then some (48/10)
  else if s = "g" then some (367/100)
  else if s = "r" then some (27/10)
  else if s = "i" then some (206/100)
  else if s = "z" then some (159/100)
  else if s = "y" then some (131/100)
  else none

/-- `ebv3d.getDeltaMag` (readExtinction.py lines 201-211): unknown
filter names are silently replaced by `'r'`; the result is the
element-wise map `dmods + R_x[filter] * ebvs` (the numpy
`[np.newaxis]` broadcast followed by `[0]` nets to exactly this). -/
def getDeltaMag (dmods ebvs : List (List ℚ)) (sFilt : String) :
    List (List ℚ) :=
  let s := if (R_x sFilt).isSome then sFilt else "r"
  let Rx := (R_x s).getD 0
  List.zipWith (fun dm e => List.zipWith (fun a b => a + Rx * b) dm e)
    dmods ebvs

/-! ## Helper lemmas -/

theorem foldl_max_init_le (l : List ℚ) (a : ℚ) : a ≤ l.foldl max a := by
  induction l generalizing a with
  | nil => exact le_rfl
  | cons x xs ih => exact le_trans (le_max_left a x) (ih (max a x))

theorem foldl_max_le_of_mem (l : List ℚ) (a x : ℚ) (h : x ∈ l) :
    x ≤ l.foldl max a := by
  induction l generalizing a with
  | nil => cases h
  | cons y ys ih =>
      rcases List.mem_cons.mp h with rfl | hmem
      · exact le_trans (le_max_right a x) (foldl_max_init_le ys (max a x))
      · exact ih (max a y) hmem

theorem npMax_isSome_of_ne_nil (l : List ℚ) (h : l ≠ []) :
    ∃ m, npMax l = some m := by
  cases l with
  | nil => exact absurd rfl h
  | cons x xs => exact ⟨xs.foldl max x, rfl⟩

theorem le_npMax_of_mem {l : List ℚ} {x m : ℚ} (hx : x ∈ l)
    (hm : npMax l = some m) : x ≤ m := by
  cases l with
  | nil => cases hx
  | cons y ys =>
      have hm' : ys.foldl max y = m := by simpa [npMax] using hm
      rcases List.mem_cons.mp hx with rfl | hmem
      · exact hm' ▸ foldl_max_init_le ys x
      · exact hm' ▸ foldl_max_le_of_mem ys y x hmem

theorem chain'_lt_map_range {n : ℕ} {f : ℕ → ℚ}
    (hf : ∀ i j, i < j → f i < f j) :
    List.Chain' (· < ·) ((List.range n).map f) :=
  ((List.pairwise_lt_range n).map f (fun a b h => hf a b h)).chain'

theorem chain'_lt_arange (start stop step : ℚ) (h : 0 < step) :
    List.Chain' (· < ·) (arange start stop step) := by
  unfold arange
  refine chain'_lt_map_range (fun i j hij => ?_)
  have hij' : (i : ℚ) < (j : ℚ) := by exact_mod_cast hij
  have := mul_lt_mul_of_pos_right hij' h
  linarith

/-- Closed-form evaluation of `arange` once the numpy length
`⌈(stop - start)/step⌉` is pinned down. -/
theorem arange_eval {start stop step : ℚ} {n : ℕ}
    (h1 : (n : ℚ) - 1 < (stop - start) / step)
    (h2 : (stop - start) / step ≤ (n : ℚ)) :
    arange start stop step
      = (List.range n).map (fun i : ℕ => start + (i : ℚ) * step) := by
  unfold arange
  have hceil : ⌈(stop - start) / step⌉ = (n : ℤ) := by
    rw [Int.ceil_eq_iff]
    exact ⟨by push_cast; exact h1, by push_cast; exact h2⟩
  rw [hceil, Int.toNat_natCast]

/-- The concrete fine array used by the C3/C4 witnesses:
`distMinPc = 0`, `distStepPc = 1`, `distMax = 0` gives
`arange(0, 5.1, 1) = [0,1,2,3,4,5]`. -/
theorem distsClose_eval : distsCloseOf 0 1 0 = [0, 1, 2, 3, 4, 5] := by
  unfold distsCloseOf generate_distances
  rw [arange_eval (n := 6) (by norm_num) (by norm_num)]
  norm_num [List.range_succ]

/-- `np.max` of the concrete fine array. -/
theorem npMax_distsClose_eval : npMax (distsCloseOf 0 1 0) = some 5 := by
  rw [distsClose_eval]
  unfold npMax
  norm_num [max_def]

/-! ## C3: length of the generated distance grid -/

/-- C3 (counterexample): with `distMinPc = 0`, `distStepPc = 1`,
`distMax = 0` and `totalBins = 6`, the fine array is `[0,1,2,3,4,5]`
(length 6), so the remaining-bin count is `0 ≥ 0` and the
negative-remainder fallback does not trigger; yet `generateDistances`
produces no array at all (`np.linspace` yields an empty coarse array
and `distsFar[1] - distsFar[0]` raises `IndexError`), let alone one of
length 6.  This refutes the claim as stated. -/
theorem c3_counterexample :
    ¬ ∃ l, generateDistances 100 0 1 100 6 0 = some l ∧ l.length = 6 := by
  have hnone : generateDistances 100 0 1 100 6 0 = none := by
    unfold generateDistances
    rw [npMax_distsClose_eval]
    have hlen : (distsCloseOf 0 1 0).length = 6 := by
      rw [distsClose_eval]
      rfl
    rw [hlen]
    norm_num [nBinsFarOf]
  rw [hnone]
  rintro ⟨l, h, -⟩
  cases h

/-- C3 (amended): for every input whose requested total bin count is
at least the length of the generated fine array PLUS TWO (with a
nonempty fine array), the concatenated distance array exists and has
exactly `nDistBins` elements.  (At remaining counts 0 and 1 the source
crashes on `distsFar[1] - distsFar[0]`, which is what forces the
"+ 2".) -/
theorem c3_amended (distMaxPc distMinPc distStepPc distMaxCoarsePc
    distMax : ℚ) (nDistBins : ℕ)
    (hne : distsCloseOf distMinPc distStepPc distMax ≠ [])
    (hn : (distsCloseOf distMinPc distStepPc distMax).length + 2 ≤ nDistBins) :
    ∃ l, generateDistances distMaxPc distMinPc distStepPc distMaxCoarsePc
        nDistBins distMax = some l ∧ l.length = nDistBins := by
  obtain ⟨m, hm⟩ := npMax_isSome_of_ne_nil _ hne
  set fine := distsCloseOf distMinPc distStepPc distMax with hfine
  have hfar : nBinsFarOf nDistBins fine.length = nDistBins - fine.length := by
    unfold nBinsFarOf
    rw [if_neg (by omega)]
    omega
  have hfar2 : ¬ nBinsFarOf nDistBins fine.length < 2 := by
    rw [hfar]; omega
  refine ⟨fine ++ distsFarOf distMaxCoarsePc m (nBinsFarOf nDistBins fine.length),
    ?_, ?_⟩
  · unfold generateDistances
    rw [← hfine, hm]
    simp only [if_neg hfar2]
  · simp only [distsFarOf, List.length_append, List.length_map,
      List.length_range]
    omega

/-- C3 (amended) witness: a concrete instance — fine array
`[0,1,2,3,4,5]`, total bin request 8 — discharging the hypotheses. -/
theorem c3_amended_witness :
    ∃ l, generateDistances 100 0 1 11 8 0 = some l ∧ l.length = 8 :=
  c3_amended 100 0 1 11 0 8 (by rw [distsClose_eval]; simp)
    (by rw [distsClose_eval]; norm_num)

/-! ## C4: strict monotonicity of the generated distance grid -/

/-- C4: whenever the fine step is positive, the coarse ceiling lies
strictly beyond the maximum fine distance, and at least two coarse
bins are laid out, `generateDistances` succeeds and its output is
strictly increasing; moreover every coarse value strictly exceeds
every fine value, so the two parts share no boundary value. -/
theorem c4_grid_monotone (distMaxPc distMinPc distStepPc distMaxCoarsePc
    distMax : ℚ) (nDistBins : ℕ) (mC : ℚ)
    (hstep : 0 < distStepPc)
    (hm : npMax (distsCloseOf distMinPc distStepPc distMax) = some mC)
    (hceil : mC < distMaxCoarsePc)
    (hfar : 2 ≤ nBinsFarOf nDistBins
      (distsCloseOf distMinPc distStepPc distMax).length) :
    ∃ distsFar : List ℚ,
      generateDistances distMaxPc distMinPc distStepPc distMaxCoarsePc
        nDistBins distMax
        = some (distsCloseOf distMinPc distStepPc distMax ++ distsFar) ∧
      List.Chain' (· < ·)
        (distsCloseOf distMinPc distStepPc distMax ++ distsFar) ∧
      ∀ x ∈ distsCloseOf distMinPc distStepPc distMax,
        ∀ y ∈ distsFar, x < y := by
  set fine := distsCloseOf distMinPc distStepPc distMax with hfine
  set nFar := nBinsFarOf nDistBins fine.length with hnFar
  set sc := (distMaxCoarsePc - mC) / ((nFar : ℕ) : ℚ) with hsc
  have hscpos : 0 < sc := by
    rw [hsc]
    apply div_pos (by linarith)
    exact_mod_cast Nat.lt_of_lt_of_le (by norm_num) hfar
  have hfar2 : ¬ nFar < 2 := by omega
  have hfinechain : List.Chain' (· < ·) fine := by
    rw [hfine]
    unfold distsCloseOf generate_distances
    exact chain'_lt_arange _ _ _ hstep
  have hfarchain : List.Chain' (· < ·) (distsFarOf distMaxCoarsePc mC nFar) := by
    unfold distsFarOf
    refine chain'_lt_map_range (fun i j hij => ?_)
    have hij' : (i : ℚ) < (j : ℚ) := by exact_mod_cast hij
    have := mul_lt_mul_of_pos_right hij' hscpos
    rw [hsc] at this
    linarith
  have hcross : ∀ x ∈ fine, ∀ y ∈ distsFarOf distMaxCoarsePc mC nFar, x < y := by
    intro x hx y hy
    have hxm : x ≤ mC := le_npMax_of_mem hx hm
    unfold distsFarOf at hy
    rcases List.mem_map.mp hy with ⟨i, _, rfl⟩
    have h1 : (0 : ℚ) ≤ (i : ℚ) * sc :=
      mul_nonneg (by exact_mod_cast Nat.zero_le i) (le_of_lt hscpos)
    rw [hsc] at h1 hscpos
    linarith
  refine ⟨distsFarOf distMaxCoarsePc mC nFar, ?_, ?_, hcross⟩
  · unfold generateDistances
    rw [← hfine, hm]
    simp only [← hnFar, if_neg hfar2]
  · rw [List.chain'_append]
    refine ⟨hfinechain, hfarchain, ?_⟩
    intro x hx y hy
    have hxmem : x ∈ fine := List.mem_of_mem_getLast? hx
    have hymem : y ∈ distsFarOf distMaxCoarsePc mC nFar := by
      cases h : (distsFarOf distMaxCoarsePc mC nFar).head? with
      | none => rw [h] at hy; cases hy
      | some z =>
          rw [h] at hy
          cases hy
          exact List.mem_of_mem_head? h
    exact hcross x hxmem y hymem

/-- C4 witness: the concrete instance with fine array `[0,1,2,3,4,5]`,
coarse ceiling 11 and two coarse bins, discharging the hypotheses. -/
theorem c4_grid_monotone_witness :
    ∃ distsFar : List ℚ,
      generateDistances 100 0 1 11 8 0 = some (distsCloseOf 0 1 0 ++ distsFar) ∧
      List.Chain' (· < ·) (distsCloseOf 0 1 0 ++ distsFar) ∧
      ∀ x ∈ distsCloseOf 0 1 0, ∀ y ∈ distsFar, x < y :=
  c4_grid_monotone 100 0 1 11 0 8 5 (by norm_num) npMax_distsClose_eval
    (by norm_num) (by rw [distsClose_eval]; norm_num [nBinsFarOf])

/-! ## C5: the scale-factor floor -/

/-- C5: writing `i` for the bin nearest the transition distance, the
scale factor computed by `hybridSightline` is exactly 1 when the Bovy
median at `i` does not exceed the floor `minEBV`, and is exactly the
ratio of the L19 median to the Bovy median at `i` when it does. -/
theorem c5_scale_factor_floor (dists ebvL19 ebvBovy : List ℚ)
    (distLim distFrac diffRatioMin minDistL19 minEBV : ℚ) (dyn : Bool)
    (i : ℕ)
    (hi : i = iTransOf dists (distCompareOf dists ebvL19 ebvBovy distLim
      distFrac diffRatioMin minDistL19 dyn)) :
    (ebvBovy.getD i 0 ≤ minEBV → rvFactorOf ebvL19 ebvBovy i minEBV = 1) ∧
    (minEBV < ebvBovy.getD i 0 →
      rvFactorOf ebvL19 ebvBovy i minEBV
        = ebvL19.getD i 0 / ebvBovy.getD i 0) := by
  constructor
  · intro h
    unfold rvFactorOf
    rw [if_neg (not_lt.mpr h)]
  · intro h
    unfold rvFactorOf
    rw [if_pos h]

/-- C5 witness: both branches at concrete medians.  With
`dists = [1,2,3]`, `distLim = 2`, `distFrac = 1` (dynamic limit off)
the transition bin is index 1; the Bovy median there is `1/2000 ≤
1/1000` in the first scenario (scale factor 1) and `2 > 1/1000` in the
second (scale factor `4/2 = 2`). -/
theorem c5_scale_factor_floor_witness :
    rvFactorOf [2, 4, 6] [1, (1:ℚ)/2000, 1] 1 (1/1000) = 1 ∧
    rvFactorOf [2, 4, 6] [1, 2, 1] 1 (1/1000) = 2 := by
  constructor
  · exact (c5_scale_factor_floor [1,2,3] [2,4,6] [1,(1:ℚ)/2000,1] 2 1 (1/2)
      1000 (1/1000) false 1
      (by norm_num [iTransOf, distCompareOf, npArgmin, npArgminAux])).1
      (by norm_num)
  · exact ((c5_scale_factor_floor [1,2,3] [2,4,6] [1,2,1] 2 1 (1/2)
      1000 (1/1000) false 1
      (by norm_num [iTransOf, distCompareOf, npArgmin, npArgminAux])).2
      (by norm_num)).trans (by norm_num)

/-! ## C2: the hybrid curve at and before the transition -/

/-- C2 (counterexample): medians `dists = [1,2,3]`, `L19 = [2,4,6]`,
`Bovy = [1, 1/1000, 1]` with `distLim = 2`, `distFrac = 1` (so the
transition distance is exactly the grid value 2 and the nearest bin is
index 1) and `minEBV = 1/1000`.  The Bovy median at the transition bin
equals the floor exactly, so no rescaling happens (`rvFactor = 1`) and
the strict comparison `distsMed < distCompare` leaves bin 1 holding
the raw Bovy median `1/1000`, not the rescaled model-A value `4`.
This refutes both halves of the claim at one input. -/
theorem c2_counterexample :
    ¬ ((ebvHybridOf [1, 2, 3] [2, 4, 6] [1, (1:ℚ)/1000, 1]
        (distCompareOf [1, 2, 3] [2, 4, 6] [1, (1:ℚ)/1000, 1] 2 1 (1/2)
          1000 false)
        (1/1000)
        (rvFactorOf [2, 4, 6] [1, (1:ℚ)/1000, 1]
          (iTransOf [1, 2, 3]
            (distCompareOf [1, 2, 3] [2, 4, 6] [1, (1:ℚ)/1000, 1] 2 1 (1/2)
              1000 false))
          (1/1000))).getD
      (iTransOf [1, 2, 3]
        (distCompareOf [1, 2, 3] [2, 4, 6] [1, (1:ℚ)/1000, 1] 2 1 (1/2)
          1000 false)) 0
      = [2, 4, 6].getD
          (iTransOf [1, 2, 3]
            (distCompareOf [1, 2, 3] [2, 4, 6] [1, (1:ℚ)/1000, 1] 2 1 (1/2)
              1000 false)) 0
        / rvFactorOf [2, 4, 6] [1, (1:ℚ)/1000, 1]
            (iTransOf [1, 2, 3]
              (distCompareOf [1, 2, 3] [2, 4, 6] [1, (1:ℚ)/1000, 1] 2 1 (1/2)
                1000 false))
            (1/1000)) := by
  norm_num [ebvHybridOf, distCompareOf, iTransOf, rvFactorOf, npArgmin,
    npArgminAux]

/-- Entry formula for the merged curve: element `i` of `ebvHybridOf`
is the two-stage overwrite of the Bovy median, written out with
`getD`. -/
theorem ebvHybridOf_getD (dists ebvL19 ebvBovy : List ℚ)
    (dc minEBV rv : ℚ)
    (hlenL : ebvL19.length = dists.length)
    (hlenB : ebvBovy.length = dists.length)
    (i : ℕ) (hi : i < dists.length) :
    (ebvHybridOf dists ebvL19 ebvBovy dc minEBV rv).getD i 0
      = (if (if dists.getD i 0 < dc then ebvL19.getD i 0 / rv
             else ebvBovy.getD i 0) < minEBV
         then ebvL19.getD i 0 / rv
         else (if dists.getD i 0 < dc then ebvL19.getD i 0 / rv
               else ebvBovy.getD i 0)) := by
  unfold ebvHybridOf
  have hiL : i < ebvL19.length := hlenL ▸ hi
  have hiB : i < ebvBovy.length := hlenB ▸ hi
  rw [List.getD_eq_getElem _ _ (by simpa [hlenL, hlenB] using hi)]
  rw [List.getD_eq_getElem _ _ hi, List.getD_eq_getElem _ _ hiL,
    List.getD_eq_getElem _ _ hiB]
  simp [List.getElem_zip, hlenL, hlenB, hi]

/-- C2 (amended): every bin strictly before the transition distance
holds the L19 median divided by the scale factor; the bin nearest the
transition distance also does, provided the Bovy median there is not
exactly equal to the floor `minEBV` and the scale factor is nonzero.
(When the Bovy median at that bin exceeds the floor, the "rescaled
model-A value" and the raw Bovy median coincide there by construction,
so the original claim's "not the raw model-B median" has no force; the
counterexample's knife-edge `medianB = minEBV` is excluded, and with
it the raw-Bovy outcome.) -/
theorem c2_amended (dists ebvL19 ebvBovy : List ℚ)
    (distLim distFrac diffRatioMin minDistL19 minEBV : ℚ) (dyn : Bool)
    (dc : ℚ) (iT : ℕ) (rv : ℚ)
    (hdc : dc = distCompareOf dists ebvL19 ebvBovy distLim distFrac
      diffRatioMin minDistL19 dyn)
    (hiT : iT = iTransOf dists dc)
    (hrvdef : rv = rvFactorOf ebvL19 ebvBovy iT minEBV)
    (hlenL : ebvL19.length = dists.length)
    (hlenB : ebvBovy.length = dists.length) :
    (∀ i, i < dists.length → dists.getD i 0 < dc →
      (ebvHybridOf dists ebvL19 ebvBovy dc minEBV rv).getD i 0
        = ebvL19.getD i 0 / rv) ∧
    (iT < dists.length → ebvBovy.getD iT 0 ≠ minEBV → rv ≠ 0 →
      (ebvHybridOf dists ebvL19 ebvBovy dc minEBV rv).getD iT 0
        = ebvL19.getD iT 0 / rv) := by
  constructor
  · intro i hi hlt
    rw [ebvHybridOf_getD dists ebvL19 ebvBovy dc minEBV rv hlenL hlenB i hi]
    rw [if_pos hlt]
    split <;> rfl
  · intro hiTlen hB hrv
    rw [ebvHybridOf_getD dists ebvL19 ebvBovy dc minEBV rv hlenL hlenB iT
      hiTlen]
    by_cases hlt : dists.getD iT 0 < dc
    · rw [if_pos hlt]
      split <;> rfl
    · rw [if_neg hlt]
      unfold rvFactorOf at hrvdef
      by_cases hfloor : minEBV < ebvBovy.getD iT 0
      · rw [if_pos hfloor] at hrvdef
        have hLne : ebvL19.getD iT 0 ≠ 0 := by
          intro h0
          rw [h0, zero_div] at hrvdef
          exact hrv hrvdef
        rw [if_neg (not_lt.mpr (le_of_lt hfloor))]
        rw [hrvdef, div_div_eq_mul_div, mul_div_cancel_left₀ _ hLne]
      · rw [if_neg hfloor] at hrvdef
        have hBlt : ebvBovy.getD iT 0 < minEBV :=
          lt_of_le_of_ne (not_lt.mp hfloor) hB
        rw [if_pos hBlt]

/-- C2 (amended) witness: the rescaling scenario `L19 = [2,4,6]`,
`Bovy = [1,2,1]`, transition bin 1, scale factor 2 — the transition
bin of the hybrid curve holds `4 / 2 = 2`. -/
theorem c2_amended_witness :
    (ebvHybridOf [1, 2, 3] [2, 4, 6] [1, 2, 1] 2 ((1:ℚ)/1000) 2).getD 1 0
      = [2, 4, 6].getD 1 0 / 2 :=
  (c2_amended [1,2,3] [2,4,6] [1,2,1] 2 1 (1/2) 1000 (1/1000) false 2 1 2
    (by norm_num [distCompareOf])
    (by norm_num [iTransOf, distCompareOf, npArgmin, npArgminAux])
    (by norm_num [rvFactorOf])
    (by norm_num) (by norm_num)).2
    (by norm_num) (by norm_num) (by norm_num)

/-! ## C1: the returned scale factor on the non-plotting path -/

/-- C1: with plotting disabled and `returnValues` set,
`hybridSightline` returns the literal `1.0` in the scale-factor slot
even though the hybrid curve was built with scale factor 2: at the
medians `dists = [1,2,3]`, `L19 = [2,4,6]`, `Bovy = [1,2,1]`
(transition bin 1, `rvFactor = 4/2 = 2`) the non-plotting call
returns `([1,2,1], [1,2,3], 1)` — third slot 1 — while the very same
inputs with plotting enabled return the factor 2 actually used, which
also divides the curve (`[1,2,1] = [2,4,6]` rescaled by 2 before the
transition).  This exhibits the divergence from the claim that the
third returned value is the scale factor actually used regardless of
plotting. -/
theorem c1_scalefactor_dropped :
    hybridSightline 1 [1, 2, 3] [2, 4, 6] [1, 2, 1] 2 1 (1/2) 1000
        ((1:ℚ)/1000) false false true
      = some ([1, 2, 1], [1, 2, 3], 1) ∧
    hybridSightline 1 [1, 2, 3] [2, 4, 6] [1, 2, 1] 2 1 (1/2) 1000
        ((1:ℚ)/1000) false true true
      = some ([1, 2, 1], [1, 2, 3], 2) ∧
    rvFactorOf [2, 4, 6] [1, 2, 1]
      (iTransOf [1, 2, 3]
        (distCompareOf [1, 2, 3] [2, 4, 6] [1, 2, 1] 2 1 (1/2) 1000 false))
      ((1:ℚ)/1000) = 2 := by
  refine ⟨?_, ?_, ?_⟩ <;>
    norm_num [hybridSightline, distCompareOf, iTransOf, rvFactorOf,
      ebvHybridOf, npArgmin, npArgminAux]

/-! ## C9: zero kept samples aborts the batch -/

/-- C9: a batch whose first sight line keeps zero offset samples is
not skipped-and-continued: `hybridSightline` returns `None`
(line 488-490) and the tuple unpacking in `loopSightlines` (line 840)
raises `TypeError`, aborting the whole batch — the second, healthy
sight line is never processed and no partial flush survives the crash.
An identical batch without the degenerate sight line runs to
completion.  This exhibits the divergence from the claimed
skip-and-continue policy. -/
theorem c9_batch_aborts :
    loopSightlines
        [⟨0, [1, 2, 3], [2, 4, 6], [1, 2, 1], 2⟩,
         ⟨1, [1, 2, 3], [2, 4, 6], [1, 2, 1], 2⟩] 1
      = .error "TypeError: cannot unpack non-iterable NoneType" ∧
    loopSightlines
        [⟨1, [1, 2, 3], [2, 4, 6], [1, 2, 1], 2⟩,
         ⟨1, [1, 2, 3], [2, 4, 6], [1, 2, 1], 2⟩] 1
      = .ok ([([1, 2, 1], [1, 2, 3], 1), ([1, 2, 1], [1, 2, 3], 1)], 2) := by
  constructor <;>
    norm_num [loopSightlines, loopSightlinesAux, hybridSightline,
      distCompareOf, iTransOf, rvFactorOf, ebvHybridOf, npArgmin,
      npArgminAux]

/-! ## C8: mask rows for tiles without mask data -/

theorem foldl_set_getD_of_not_mem (xs : List ℕ) (m : List (List ℕ))
    (v : List ℕ) (r : ℕ) (hr : r ∉ xs) :
    (xs.foldl (fun acc x => acc.set x v) m).getD r [] = m.getD r [] := by
  induction xs generalizing m with
  | nil => rfl
  | cons y ys ih =>
      have hry : r ≠ y := fun h => hr (h ▸ List.mem_cons_self y ys)
      have hrys : r ∉ ys := fun h => hr (List.mem_cons_of_mem y h)
      simp only [List.foldl_cons]
      rw [ih (m.set y v) hrys, List.getD_eq_getElem?_getD,
        List.getElem?_set_ne (fun h => hry h.symm),
        ← List.getD_eq_getElem?_getD]

theorem foldl_set_getD_of_mem (xs : List ℕ) (m : List (List ℕ))
    (v : List ℕ) (r : ℕ) (hr : r ∈ xs) (hlt : r < m.length) :
    (xs.foldl (fun acc x => acc.set x v) m).getD r [] = v := by
  induction xs generalizing m with
  | nil => cases hr
  | cons y ys ih =>
      simp only [List.foldl_cons]
      by_cases hys : r ∈ ys
      · exact ih (m.set y v) hys (by simpa using hlt)
      · have hry : r = y := by
          rcases List.mem_cons.mp hr with h | h
          · exact h
          · exact absurd h hys
        subst hry
        rw [foldl_set_getD_of_not_mem ys (m.set r v) v r hys,
          List.getD_eq_getElem?_getD, List.getElem?_set_self hlt]
        rfl

/-- C8 (counterexample): a 12-pixel map (`nside = 1`), one bin, and a
single tile covering pixel 0 that carries no mask data.  `mergeMaps`
sets that pixel's mask row to `[0]` — the GOOD value under the map's
stated convention (mask FALSE/0 for good points) — i.e. the row is
marked valid, not invalid-masked as the claim states. -/
theorem c8_counterexample :
    (mergeMaps 1 1 [⟨[0], [[5]], [[6]], [7], none⟩]).2.2.2.getD 0 []
        = [0] ∧
    ¬ ((mergeMaps 1 1 [⟨[0], [[5]], [[6]], [7], none⟩]).2.2.2.getD 0 []).getD
        0 1 ≠ 0 := by
  constructor <;>
    norm_num [mergeMaps, mergeTile, setRows, nside2npix, List.replicate]

/-- C8 (amended): when `mergeMaps` incorporates a tile that carries no
mask data, every output-mask row at that tile's pixel ids is set to
all zeros — marked GOOD/valid under the merged map's convention that 0
is a good point — while rows covered by no tile keep the initial mask
value 1 (masked).  (The claim had the polarity backwards.) -/
theorem c8_amended (nside nbins : ℕ) (t : MapTile) (hmask : t.mask = none)
    (r : ℕ) (hr : r ∈ t.rows) (hlt : r < nside2npix nside) :
    (mergeMaps nside nbins [t]).2.2.2.getD r [] = List.replicate nbins 0 := by
  unfold mergeMaps mergeTile
  simp only [List.foldl_cons, List.foldl_nil, hmask]
  exact foldl_set_getD_of_mem t.rows _ _ r hr (by simpa using hlt)

/-- C8 (amended) witness: the concrete mask-less tile at pixel 0 of a
12-pixel map has its mask row set to `[0]`. -/
theorem c8_amended_witness :
    (mergeMaps 1 1 [⟨[0], [[5]], [[6]], [7], none⟩]).2.2.2.getD 0 []
      = List.replicate 1 0 :=
  c8_amended 1 1 ⟨[0], [[5]], [[6]], [7], none⟩ rfl 0
    (List.mem_cons_self 0 []) (by norm_num [nside2npix])

/-! ## C10: unknown filter names fall back to the r band -/

/-- C10: for any filter name outside the six known keys,
`ebv3d.getDeltaMag` silently substitutes the r-band coefficient, so
its result coincides with `getDeltaMag('r')` on the same map data. -/
theorem c10_unknown_filter_rband (dmods ebvs : List (List ℚ))
    (sFilt : String) (h : R_x sFilt = none) :
    getDeltaMag dmods ebvs sFilt = getDeltaMag dmods ebvs "r" := by
  unfold getDeltaMag
  rw [h]
  simp

/-- C10 witness: the unknown filter name `"w"` produces the r-band
delta-magnitude map. -/
theorem c10_unknown_filter_rband_witness :
    getDeltaMag [[1, 2]] [[3, 4]] "w" = getDeltaMag [[1, 2]] [[3, 4]] "r" :=
  c10_unknown_filter_rband [[1, 2]] [[3, 4]] "w" (by simp [R_x])

/-! ## C7: monotone cumulative extinction -/

theorem scanl_add_head? (b : ℚ) (l : List ℚ) :
    (l.scanl (· + ·) b).head? = some b := by
  cases l <;> rfl

theorem chain'_le_scanl_add (l : List ℚ) (a : ℚ) (h : ∀ x ∈ l, 0 ≤ x) :
    List.Chain' (· ≤ ·) (l.scanl (· + ·) a) := by
  induction l generalizing a with
  | nil => simp
  | cons x xs ih =>
      rw [List.scanl_cons]
      rw [List.singleton_append, List.chain'_cons']
      constructor
      · intro y hy
        rw [scanl_add_head? (a + x) xs] at hy
        cases hy
        have hx : 0 ≤ x := h x (List.mem_cons_self x xs)
        linarith
      · exact ih (a + x) (fun z hz => h z (List.mem_cons_of_mem x hz))

/-- `np.cumsum` of a list of nonnegative values is non-decreasing. -/
theorem cumsum_chain' (l : List ℚ) (h : ∀ x ∈ l, 0 ≤ x) :
    List.Chain' (· ≤ ·) (cumsum l) :=
  (chain'_le_scanl_add l 0 h).tail

theorem dSteps_length (d : List ℚ) (h : 2 ≤ d.length) :
    (dSteps d).length = d.length := by
  match d with
  | [] => simp at h
  | [x] => simp at h
  | d0 :: d1 :: rest =>
      simp [dSteps]

theorem dSteps_pos (d : List ℚ) (hmono : List.Chain' (· < ·) d)
    (i : ℕ) (hi : i < (dSteps d).length) : 0 < (dSteps d)[i] := by
  match d with
  | [] => simp [dSteps] at hi
  | [x] => simp [dSteps] at hi
  | d0 :: d1 :: rest =>
      have hadj : ∀ j (hj : j < (d0 :: d1 :: rest).length - 1),
          (d0 :: d1 :: rest).get ⟨j, by omega⟩
            < (d0 :: d1 :: rest).get ⟨j + 1, by omega⟩ :=
        List.chain'_iff_get.mp hmono
      cases i with
      | zero =>
          have := hadj 0 (by simp)
          simp only [List.get_eq_getElem] at this
          simpa [dSteps] using this
      | succ j =>
          have hlenD : (dSteps (d0 :: d1 :: rest)).length = rest.length + 2 := by
            simp [dSteps]
          have hjr : j < (d1 :: rest).length := by
            rw [hlenD] at hi
            simp only [List.length_cons]
            omega
          have hjd : j < (d0 :: d1 :: rest).length := by
            simp only [List.length_cons] at hjr ⊢
            omega
          have hj2 : j + 1 < (d0 :: d1 :: rest).length := by
            simp only [List.length_cons] at hjr ⊢
            omega
          have hj' : j < (d0 :: d1 :: rest).length - 1 := by
            simp only [List.length_cons] at hjr ⊢
            omega
          have hadjj := hadj j hj'
          simp only [List.get_eq_getElem] at hadjj
          have key : (d0 :: d1 :: rest).getD j 0
              < (d0 :: d1 :: rest).getD (j + 1) 0 := by
            rw [List.getD_eq_getElem _ _ hjd, List.getD_eq_getElem _ _ hj2]
            exact hadjj
          simp only [dSteps, List.getElem_cons_succ, List.getElem_zipWith]
          rw [← List.getD_eq_getElem (d1 :: rest) 0 hjr,
            ← List.getD_eq_getElem (d0 :: d1 :: rest) 0 hjd]
          have hbridge : (d1 :: rest).getD j 0
              = (d0 :: d1 :: rest).getD (j + 1) 0 := rfl
          rw [hbridge]
          linarith [key]

/-- C7: for a strictly increasing supplied distance array of length at
least two, if every interpolated density along the sight line is
nonnegative then the cumulative E(B-V) array returned by
`get_ebv_lallement` is non-decreasing bin to bin. -/
theorem c7_cumulative_monotone (ρ : ℚ → ℚ → ℚ → ℚ)
    (ux uy uz xmax ymax zmax dist dmin dstep : ℚ) (distances : List ℚ)
    (hlen : 2 ≤ distances.length)
    (hmono : List.Chain' (· < ·) distances)
    (hρ : ∀ t ∈ distances, 0 ≤ ρ (t * ux) (t * uy) (t * uz)) :
    ∀ c d m, get_ebv_lallement ρ ux uy uz xmax ymax zmax dist dmin dstep
      distances = some (c, d, m) → List.Chain' (· ≤ ·) c := by
  intro c d m h
  unfold get_ebv_lallement at h
  have hne : distances.isEmpty = false := by
    cases distances
    · simp at hlen
    · rfl
  rw [hne] at h
  simp only [Bool.false_eq_true, if_false, if_neg (not_lt.mpr hlen)] at h
  cases hfm : find_max_distance ux uy uz xmax ymax zmax distances with
  | none => rw [hfm] at h; cases h
  | some dm =>
      rw [hfm] at h
      have hc : c = cumsum (List.zipWith (· * ·)
          (distances.map (fun t => ρ (t * ux) (t * uy) (t * uz)))
          (dSteps distances)) := by
        injection h with h1
        injection h1 with h2 h3
        exact h2.symm
      rw [hc]
      apply cumsum_chain'
      intro v hv
      rcases List.mem_iff_getElem.mp hv with ⟨i, hilen, rfl⟩
      rw [List.getElem_zipWith]
      have hiD : i < distances.length := by
        simp only [List.length_zipWith, List.length_map] at hilen
        omega
      have hiS : i < (dSteps distances).length := by
        simp only [List.length_zipWith, List.length_map] at hilen
        omega
      refine mul_nonneg ?_ (le_of_lt (dSteps_pos distances hmono i hiS))
      rw [List.getElem_map]
      exact hρ _ (List.getElem_mem hiD)

/-- C7 witness: unit direction along x, cube half-width 10, constant
density 1 on the strictly increasing grid `[1,2,4]` (step widths
`[1,1,2]`): the returned cumulative array `[1,2,4]` is
non-decreasing. -/
theorem c7_cumulative_monotone_witness :
    List.Chain' (· ≤ ·) [(1:ℚ), 2, 4] :=
  c7_cumulative_monotone (fun _ _ _ => 1) 1 0 0 10 10 10 0 0 0 [1, 2, 4]
    (by norm_num) (by norm_num) (fun t _ => by norm_num)
    [(1:ℚ), 2, 4] [1, 2, 4] 4
    (by norm_num [get_ebv_lallement, find_max_distance, npMax, dSteps,
      cumsum, max_def, List.scanl])

/-! ## C6: queries outside the cube bounds return zero -/

/-- C6: any query point lying outside the cube's bounds on at least
one axis makes the grid interpolator return exactly 0 (no error, no
extrapolation). -/
theorem c6_out_of_bounds_zero (ax ay az : CubeAxis) (f : ℕ → ℕ → ℕ → ℚ)
    (x y z : ℚ)
    (h : ax.inBounds x = false ∨ ay.inBounds y = false ∨
      az.inBounds z = false) :
    rgi ax ay az f x y z = 0 := by
  unfold rgi
  rcases h with h | h | h <;> simp [h]

/-- C6 witness: a 3-point axis grid spanning `[0, 2]` on each axis
with constant field 5; the query `(5, 1, 1)` lies beyond the x bounds
and returns 0. -/
theorem c6_out_of_bounds_zero_witness :
    rgi ⟨0, 1, 3⟩ ⟨0, 1, 3⟩ ⟨0, 1, 3⟩ (fun _ _ _ => 5) 5 1 1 = 0 :=
  c6_out_of_bounds_zero ⟨0, 1, 3⟩ ⟨0, 1, 3⟩ ⟨0, 1, 3⟩ (fun _ _ _ => 5) 5 1 1
    (Or.inl (by norm_num [CubeAxis.inBounds, CubeAxis.hi]))

end RubinCadence
